import Mathlib

/-!
Verification of the gene-set enrichment pipeline and identifier-conversion
utilities of the `bio-utils` repository.

The Python sources embedded here are
`src/python/protein_modules/module_enrichment_analysis.py`,
`src/python/statistics/gene_set_fisher.py` and
`src/python/prior-knowledge-network/convert_uniprot_to_gene.py`.
Gene identifiers are opaque strings; gene sets are `Finset String`.
Python integers may go negative under subtraction, so contingency-table
cells are modelled as `Int`.  The calls into external libraries
(`scipy.stats.fisher_exact`, `statsmodels multipletests`) are modelled from
the spec, as marked on the corresponding definitions.
-/

/-! ## Contingency-table builders -/

/-- The 2×2 contingency table built by `perform_fisher_test` in
`module_enrichment_analysis.py` (lines 142-153):
`a = |module ∩ test|`, `b = |test| - a`, `c = |module| - a`,
`d = |background| - a - b - c`. -/
def contingencyTable (module_genes test_genes background_genes : Finset String) :
    Int × Int × Int × Int :=
  let a : Int := ((module_genes ∩ test_genes).card : Int)
  let b : Int := (test_genes.card : Int) - a
  let c : Int := (module_genes.card : Int) - a
  let d : Int := (background_genes.card : Int) - a - b - c
  (a, b, c, d)

/-- The table built by `pathway_enrichment_test` in `gene_set_fisher.py`
(lines 156-163).  The pathway set is first intersected with the background
(`pathway_in_background`), but `diff_genes` is used exactly as given. -/
def pathwayContingencyTable (diff_genes pathway_genes background_genes : Finset String) :
    Int × Int × Int × Int :=
  let pathway_in_background := pathway_genes ∩ background_genes
  let a : Int := ((diff_genes ∩ pathway_in_background).card : Int)
  let b : Int := (diff_genes.card : Int) - a
  let c : Int := (pathway_in_background.card : Int) - a
  let d : Int := (background_genes.card : Int) - a - b - c
  (a, b, c, d)

/-- The contingency-table invariant of spec §3/§8: the four cells sum to the
universe size and are all non-negative. -/
def tableInvariant (t : Int × Int × Int × Int) (universe_size : ℕ) : Prop :=
  t.1 + t.2.1 + t.2.2.1 + t.2.2.2 = (universe_size : Int) ∧
    0 ≤ t.1 ∧ 0 ≤ t.2.1 ∧ 0 ≤ t.2.2.1 ∧ 0 ≤ t.2.2.2

/-! ## Fisher's exact test (one-sided, alternative='greater')

`scipy.stats.fisher_exact` is external to the repository; the two scripts
call it on the tables above with `alternative='greater'`. -/

/-- Numerator of the hypergeometric probability of a table with the same
margins as `(a,b,c,d)` whose top-left cell is `k`:
`C(a+b, k) * C(c+d, (a+c) - k)`.  Only evaluated at `k ≤ a + c`. -/
def hyperNum (a b c d k : ℕ) : ℚ :=
  (((a + b).choose k : ℕ) : ℚ) * (((c + d).choose (a + c - k) : ℕ) : ℚ)

/-- Modelled from the spec: the one-sided p-value that
`scipy.stats.fisher_exact(table, alternative='greater')` returns (the call is
external to the repository).  It sums the hypergeometric probabilities of all
top-left cells `k ≥ a` over the support `a ≤ k ≤ min (a+b) (a+c)`. -/
def fisherPValueGreater (a b c d : ℕ) : ℚ :=
  (Finset.Icc a (min (a + b) (a + c))).sum (fun k => hyperNum a b c d k) /
    (((a + b + c + d).choose (a + c) : ℕ) : ℚ)

/-- Reference one-sided Fisher p-value (spec §4.2, §8): the probability, under
the hypergeometric null with the table's margins, of any valid table (all four
cells non-negative) whose top-left cell is at least the observed `a`. -/
def referencePValueGreater (a b c d : ℕ) : ℚ :=
  ((Finset.range (a + b + c + d + 1)).filter
      (fun k => a ≤ k ∧ k ≤ a + b ∧ k ≤ a + c)).sum (fun k => hyperNum a b c d k) /
    (((a + b + c + d).choose (a + c) : ℕ) : ℚ)

/-- Modelled from the spec: the sample odds ratio `a*d / (b*c)` that
`scipy.stats.fisher_exact` returns, infinite (`none`) when a denominator
cell is zero (spec §4.2). -/
def fisherOdds (a b c d : ℕ) : Option ℚ :=
  if b * c = 0 then none else some (((a : ℚ) * d) / ((b : ℚ) * c))

/-- Reference odds ratio (spec glossary): the odds of pathway membership in
the test group, `a / b`, divided by the odds in the rest, `c / d`; infinite
(`none`) when a denominator cell is zero. -/
def referenceOdds (a b c d : ℕ) : Option ℚ :=
  if b = 0 ∨ c = 0 then none else some (((a : ℚ) / b) / ((c : ℚ) / d))

/-- The four cells read back as the naturals that `scipy` sees (it rejects
tables with a negative cell). -/
def tableToNat (t : Int × Int × Int × Int) : ℕ × ℕ × ℕ × ℕ :=
  (t.1.toNat, t.2.1.toNat, t.2.2.1.toNat, t.2.2.2.toNat)

/-- `referencePValueGreater` on a table given as a tuple. -/
def referencePValueT (t : ℕ × ℕ × ℕ × ℕ) : ℚ :=
  referencePValueGreater t.1 t.2.1 t.2.2.1 t.2.2.2

/-- `referenceOdds` on a table given as a tuple. -/
def referenceOddsT (t : ℕ × ℕ × ℕ × ℕ) : Option ℚ :=
  referenceOdds t.1 t.2.1 t.2.2.1 t.2.2.2

/-- The result dictionary of `pathway_enrichment_test`
(`gene_set_fisher.py`, lines 174-183). -/
structure PathwayResult where
  genes_in_pathway : ℕ
  total_diff_genes : ℕ
  pathway_size : ℕ
  background_size : ℕ
  odds : Option ℚ
  p_value : ℚ
  table : Int × Int × Int × Int
  overlap_genes : Finset String
deriving DecidableEq

/-- `pathway_enrichment_test` (`gene_set_fisher.py`, lines 145-183). -/
def pathwayEnrichmentTest (diff_genes pathway_genes background_genes : Finset String) :
    PathwayResult :=
  let pathway_in_background := pathway_genes ∩ background_genes
  let t := pathwayContingencyTable diff_genes pathway_genes background_genes
  let tn := tableToNat t
  { genes_in_pathway := (diff_genes ∩ pathway_in_background).card
    total_diff_genes := diff_genes.card
    pathway_size := pathway_in_background.card
    background_size := background_genes.card
    odds := fisherOdds tn.1 tn.2.1 tn.2.2.1 tn.2.2.2
    p_value := fisherPValueGreater tn.1 tn.2.1 tn.2.2.1 tn.2.2.2
    table := t
    overlap_genes := diff_genes ∩ pathway_in_background }

/-! ## Module file parsing (`module_enrichment_analysis.py`) -/

/-- One row of the module CSV: columns `ID`, `process_name`, `Members`.
A missing (NaN) `Members` field is `none`. -/
structure ModuleRow where
  id : String
  process_name : String
  members : Option String
deriving DecidableEq

/-- Python's `str.split(',')`: split a character list at every comma,
keeping empty pieces. -/
def splitComma (l : List Char) : List (List Char) :=
  l.foldr (fun c acc =>
    match acc with
    | [] => [[c]]
    | cur :: rest => if c = ',' then [] :: cur :: rest else (c :: cur) :: rest) [[]]

/-- Python's `str.strip()`: drop whitespace from both ends. -/
def stripChars (l : List Char) : List Char :=
  ((l.dropWhile Char.isWhitespace).reverse.dropWhile Char.isWhitespace).reverse

/-- `{gene.strip() for gene in genes_str.split(',')}` guarded by
`if pd.isna(genes_str) or not genes_str: return set()`
(`get_module_genes`, lines 122-128; the same parse builds the background,
lines 353-356). -/
def parseMembers : Option String → Finset String
  | none => ∅
  | some s =>
    if s = "" then ∅
    else ((splitComma s.data).map (fun g => (stripChars g).asString)).toFinset

/-- `get_module_genes` (lines 115-128): genes of the first row whose `ID`
matches; the empty set when there is no such row. -/
def getModuleGenes (rows : List ModuleRow) (module_id : String) : Finset String :=
  match rows.find? (fun r => r.id == module_id) with
  | none => ∅
  | some r => parseMembers r.members

/-- The background/universe set (`main`, lines 350-357): the union of the
parsed `Members` of every row of the module file. -/
def backgroundGenes (rows : List ModuleRow) : Finset String :=
  rows.foldl (fun acc r => acc ∪ parseMembers r.members) ∅

/-- `module_df['ID'].unique()`: distinct ids in order of first occurrence. -/
def uniqueKeepFirst : List String → List String
  | [] => []
  | x :: xs => x :: uniqueKeepFirst (xs.filter (fun y => y != x))
termination_by l => l.length
decreasing_by
  simp only [List.length_cons]
  exact Nat.lt_succ_of_le (List.length_filter_le _ _)

/-- One row of the enrichment result collection (`main`, lines 389-397).
`scipy` rejects tables with a negative cell, and every call site is proved
below to produce non-negative cells, so the cells are read back with
`Int.toNat`.  The overlap list is kept as the set it is in the source. -/
structure ModuleResult where
  module_id : String
  module_name : String
  module_size : ℕ
  overlap_count : ℕ
  p_value : ℚ
  odds : Option ℚ
  overlap_genes : Finset String
deriving DecidableEq

/-- `perform_fisher_test` (lines 130-156): overlap count, p-value, odds
ratio, overlap list. -/
def performFisherTest (module_genes test_genes background_genes : Finset String) :
    ℕ × ℚ × Option ℚ × Finset String :=
  let overlap := module_genes ∩ test_genes
  let t := contingencyTable module_genes test_genes background_genes
  (overlap.card,
   fisherPValueGreater t.1.toNat t.2.1.toNat t.2.2.1.toNat t.2.2.2.toNat,
   fisherOdds t.1.toNat t.2.1.toNat t.2.2.1.toNat t.2.2.2.toNat,
   overlap)

/-- The per-module loop body of `main` (lines 371-397) over a given list of
module ids: modules whose gene set is empty are skipped (lines 378-381),
every other module contributes one result row. -/
def processIds (rows : List ModuleRow) (query_genes background : Finset String)
    (ids : List String) : List ModuleResult :=
  ids.filterMap (fun mid =>
    let module_name :=
      match rows.find? (fun r => r.id == mid) with
      | some r => r.process_name
      | none => ""
    let module_genes := getModuleGenes rows mid
    if module_genes = ∅ then none
    else
      let f := performFisherTest module_genes query_genes background
      some { module_id := mid, module_name := module_name,
             module_size := module_genes.card, overlap_count := f.1,
             p_value := f.2.1, odds := f.2.2.1, overlap_genes := f.2.2.2 })

/-- The data pipeline of `main` (lines 350-397): build the background from
the module file, restrict the query genes to it (lines 360-364), and test
each unique module id. -/
def runEnrichment (rows : List ModuleRow) (query_genes : Finset String) :
    List ModuleResult :=
  let background := backgroundGenes rows
  processIds rows (query_genes ∩ background) background
    (uniqueKeepFirst (rows.map (fun r => r.id)))

/-! ## Benjamini–Hochberg FDR correction

Modelled from the spec (§4.3): `statsmodels multipletests(..., method='fdr_bh')`
is external to the repository.  Sort the p-values ascending, divide the j-th
(0-based) by `(j+1)/n`, take running minima from the right, clip at 1, and
restore the original order.  `argsort` is modelled with a stable sort; the
properties proved below do not depend on how ties are broken. -/

/-- The Benjamini–Hochberg ecdf factor `(j+1)/n` for 0-based rank `j`. -/
def ecdfFactor (n j : ℕ) : ℚ := ((j : ℚ) + 1) / (n : ℚ)

/-- `pvals_sorted / ecdffactor`. -/
def bhRawSorted (ps : List ℚ) : List ℚ :=
  ps.enum.map (fun x => x.2 / ecdfFactor ps.length x.1)

/-- `np.minimum.accumulate(xs[::-1])[::-1]`: running minima from the right. -/
def suffixMins : List ℚ → List ℚ
  | [] => []
  | p :: rest =>
    match suffixMins rest with
    | [] => [p]
    | q :: qs => min p q :: q :: qs

/-- BH-adjusted p-values of an ascending-sorted list (divide, take suffix
minima, clip at 1). -/
def bhAdjustSorted (ps : List ℚ) : List ℚ :=
  (suffixMins (bhRawSorted ps)).map (fun q => min q 1)

/-- Modelled from the spec: `multipletests(pvals, method='fdr_bh')[1]` —
sort, adjust, and restore the original order through the sorting
permutation. -/
def multipletestsFdrBh (ps : List ℚ) : List ℚ :=
  (((((ps.enum.mergeSort (fun x y => decide (x.2 ≤ y.2))).map Prod.fst).zip
      (bhAdjustSorted ((ps.enum.mergeSort (fun x y => decide (x.2 ≤ y.2))).map Prod.snd))).mergeSort
      (fun x y => decide (x.1 ≤ y.1))).map Prod.snd)

/-- Result post-processing of `main` (lines 399-424): attach the FDR column
computed over the full collection (line 405), sort ascending by p-value
(line 411), and filter the significant subset `p_value < 0.05`
(line 419).  Returns (primary output, secondary output). -/
def finalizeResults (results : List ModuleResult) :
    List (ModuleResult × ℚ) × List (ModuleResult × ℚ) :=
  let withFdr := results.zip (multipletestsFdrBh (results.map (fun r => r.p_value)))
  let sorted := withFdr.mergeSort (fun x y => decide (x.1.p_value ≤ y.1.p_value))
  (sorted, sorted.filter (fun x => decide (x.1.p_value < (5 : ℚ) / 100)))

/-! ## UniProt identifier conversion (`convert_uniprot_to_gene.py`) -/

/-- First alternative of `UNIPROT_ID_PATTERN` under `re.match`:
`^[OPQ][0-9][A-Z0-9]{3}[0-9]` — anchored at the start only, so it tests the
first six characters and ignores the rest. -/
def uniprotAlt1 : List Char → Bool
  | c0 :: c1 :: c2 :: c3 :: c4 :: c5 :: _ =>
    (c0 == 'O' || c0 == 'P' || c0 == 'Q') && c1.isDigit &&
      (c2.isUpper || c2.isDigit) && (c3.isUpper || c3.isDigit) &&
      (c4.isUpper || c4.isDigit) && c5.isDigit
  | _ => false

/-- One group `[A-Z][A-Z0-9]{2}[0-9]` of the second alternative: exactly
four characters. -/
def uniprotGroup : List Char → Bool
  | [c0, c1, c2, c3] =>
    c0.isUpper && (c1.isUpper || c1.isDigit) && (c2.isUpper || c2.isDigit) && c3.isDigit
  | _ => false

/-- Second alternative `[A-NR-Z][0-9]([A-Z][A-Z0-9]{2}[0-9]){1,2}$`: one or
two groups, then the end of the string (`$` is modelled as end-of-string;
gene identifiers contain no trailing newline). -/
def uniprotAlt2 : List Char → Bool
  | c0 :: c1 :: rest =>
    (('A' ≤ c0 && c0 ≤ 'N') || ('R' ≤ c0 && c0 ≤ 'Z')) && c1.isDigit &&
      (uniprotGroup rest || (uniprotGroup (rest.take 4) && uniprotGroup (rest.drop 4)))
  | _ => false

/-- `UniProtConverter.UNIPROT_ID_PATTERN.match(id)` (line 53): the regex
`^[OPQ][0-9][A-Z0-9]{3}[0-9]|[A-NR-Z][0-9]([A-Z][A-Z0-9]{2}[0-9]){1,2}$`
tried at position 0. -/
def uniprotMatch (s : String) : Bool :=
  uniprotAlt1 s.data || uniprotAlt2 s.data

/-- Conversion statistics (`self.stats`, lines 75-81). -/
structure ConvStats where
  total_ids : ℕ
  converted_ids : ℕ
  already_gene_symbols : ℕ
  failed_ids : ℕ
  not_found_ids : List String
deriving DecidableEq

/-- Converter state: the `id_to_gene_cache` dictionary (as an association
list looked up front-to-back) and the statistics. -/
structure ConvState where
  verbose : Bool
  id_to_gene_cache : List (String × String)
  stats : ConvStats
deriving DecidableEq

/-- The state of a freshly constructed `UniProtConverter` (lines 71-81). -/
def freshConvState : ConvState :=
  { verbose := false, id_to_gene_cache := [], stats := ⟨0, 0, 0, 0, []⟩ }

/-- Dictionary lookup. -/
def alookup (m : List (String × String)) (k : String) : Option String :=
  match m.find? (fun kv => kv.1 == k) with
  | some kv => some kv.2
  | none => none

/-- Dictionary write `m[k] = v`: any previous entry for `k` is overwritten,
so the entries keep distinct keys. -/
def aset (m : List (String × String)) (k v : String) : List (String × String) :=
  (k, v) :: m.filter (fun kv => kv.1 != k)

/-- `ids_to_query` (line 152): drop ids already in the cache. -/
def idsToQuery (cache : List (String × String)) (uniprot_ids : List String) : List String :=
  uniprot_ids.filter (fun id => (alookup cache id).isNone)

/-- `valid_uniprot_ids` (lines 155-159): the non-empty ids of `ids_to_query`
matching the accession pattern, in order.  Exactly these are sent to the
search API. -/
def validUniprotIds (cache : List (String × String)) (uniprot_ids : List String) :
    List String :=
  (idsToQuery cache uniprot_ids).filter (fun id => id != "" && uniprotMatch id)

/-- `potential_gene_symbols` (lines 162-168): the non-empty ids failing the
pattern; each is cached as itself and counted under `already_gene_symbols`. -/
def geneSymbolIds (cache : List (String × String)) (uniprot_ids : List String) :
    List String :=
  (idsToQuery cache uniprot_ids).filter (fun id => id != "" && !uniprotMatch id)

/-- `convert_ids_batch` (lines 140-200).  The remote search API is
abstracted as `api : String → Option String`, resolving each queried
accession to at most one primary gene symbol (`_query_uniprot_search_api`
keys its result dictionary by the queried accessions).  The single Python
loop over `ids_to_query` is split into its two disjoint branches
(`validUniprotIds` and `geneSymbolIds`); falsy ids (the empty string) fall
in neither and are silently dropped.  Returns the combined mapping and the
new converter state. -/
def convertIdsBatch (api : String → Option String) (st : ConvState)
    (uniprot_ids : List String) : List (String × String) × ConvState :=
  let symbols := geneSymbolIds st.id_to_gene_cache uniprot_ids
  let valid := validUniprotIds st.id_to_gene_cache uniprot_ids
  let cache1 := symbols.foldl (fun c id => aset c id id) st.id_to_gene_cache
  let result := valid.foldl (fun acc id =>
      match api id with
      | some g => aset acc id g
      | none => acc) []
  let cache2 := result.foldl (fun c kv => aset c kv.1 kv.2) cache1
  let not_found := valid.filter (fun id => (alookup result id).isNone)
  let stats :=
    { total_ids := st.stats.total_ids + valid.length
      converted_ids := st.stats.converted_ids + result.length
      already_gene_symbols := st.stats.already_gene_symbols + symbols.length
      failed_ids := st.stats.failed_ids + (valid.length - result.length)
      not_found_ids :=
        st.stats.not_found_ids ++ (if st.verbose then not_found else []) }
  let combined := uniprot_ids.filterMap (fun id =>
      match alookup cache2 id with
      | some g => some (id, g)
      | none => if id != "" then some (id, id) else none)
  (combined, { st with id_to_gene_cache := cache2, stats := stats })

/-! ## HTTP retry behaviour (`convert_uniprot_to_gene.py`) -/

/-- The retry loop of `_query_uniprot_search_api` (lines 238-277).
`net k` is the outcome of the HTTP request on attempt number `k` (0-based;
`none` is a transient network failure).  Arguments: attempts already made,
remaining fuel (`max_retries - retry_count`).  Returns the outcome, the
total number of attempts made, and the backoff sleeps
(`time.sleep(2 * retry_count)`, executed only while `retry_count <
max_retries`). -/
def retryLoop (net : ℕ → Option (List (String × String))) :
    ℕ → ℕ → Option (List (String × String)) × ℕ × List ℕ
  | k, 0 => (none, k, [])
  | k, fuel + 1 =>
    match net k with
    | some a => (some a, k + 1, [])
    | none =>
      let rest := retryLoop net (k + 1) fuel
      (rest.1, rest.2.1, (if 0 < fuel then [2 * (k + 1)] else []) ++ rest.2.2)

/-- One batch request with `retry_count = 0` and `max_retries = 3`
(lines 238-239). -/
def queryWithRetry (net : ℕ → Option (List (String × String))) :
    Option (List (String × String)) × ℕ × List ℕ :=
  retryLoop net 0 3

/-- `uniprot_ids[i:i+max_ids_per_request]` with `max_ids_per_request = 10`
(lines 214-218). -/
def chunks10 : List String → List (List String)
  | [] => []
  | x :: l => (x :: l).take 10 :: chunks10 ((x :: l).drop 10)
termination_by l => l.length
decreasing_by
  simp only [List.length_drop, List.length_cons]
  omega

/-- `_query_uniprot_search_api` (lines 202-282): each 10-id chunk is
requested with the retry loop; a chunk whose three attempts all fail is
logged and skipped, and the loop continues with the next chunk.
`net i k` is the outcome of attempt `k` for chunk `i`.  Returns the
accumulated result rows and the number of attempts made per chunk. -/
def querySearchApi (net : ℕ → ℕ → Option (List (String × String)))
    (uniprot_ids : List String) : List (String × String) × List ℕ :=
  ((chunks10 uniprot_ids).enum).foldl (fun acc ch =>
    let r := queryWithRetry (net ch.1)
    (acc.1 ++ (r.1.getD []), acc.2 ++ [r.2.1])) ([], [])

/-- Python's `str.split('\t')`. -/
def splitTab (l : List Char) : List (List Char) :=
  l.foldr (fun c acc =>
    match acc with
    | [] => [[c]]
    | cur :: rest => if c = '\t' then [] :: cur :: rest else (c :: cur) :: rest) [[]]

/-- `_get_taxonomy_id` (lines 83-136): a single HTTP request with no retry
loop; a network failure or an empty response raises `ValueError` (modelled
as `Except.error`), which aborts the conversion.  `net k` is the outcome of
attempt `k` (the function only ever evaluates `net 0`); the response is its
list of TSV lines.  Returns the outcome and the number of attempts made. -/
def getTaxonomyId (net : ℕ → Option (List String)) (organism : String) :
    Except String String × ℕ :=
  match net 0 with
  | none => (Except.error ("Error connecting to UniProt taxonomy API for " ++ organism), 1)
  | some lines =>
    match lines with
    | [] => (Except.error ("No taxonomy found for organism: " ++ organism), 1)
    | [_] => (Except.error ("No taxonomy found for organism: " ++ organism), 1)
    | _ :: l2 :: _ =>
      match splitTab l2.data with
      | [] => (Except.error ("Invalid response format for organism: " ++ organism), 1)
      | p :: _ => (Except.ok p.asString, 1)

/-! ## Theorems: contingency-table invariants (C1, C9, C10) -/

theorem contingencyTable_invariant (M T U : Finset String) (hM : M ⊆ U) (hT : T ⊆ U) :
    tableInvariant (contingencyTable M T U) U.card := by
  have h1 : (M ∩ T).card ≤ T.card := Finset.card_le_card Finset.inter_subset_right
  have h2 : (M ∩ T).card ≤ M.card := Finset.card_le_card Finset.inter_subset_left
  have h3 : (M ∪ T).card + (M ∩ T).card = M.card + T.card :=
    Finset.card_union_add_card_inter M T
  have h4 : (M ∪ T).card ≤ U.card := Finset.card_le_card (Finset.union_subset hM hT)
  simp only [tableInvariant, contingencyTable]
  refine ⟨by omega, by omega, by omega, by omega, by omega⟩

theorem pathwayContingencyTable_invariant (Tdiff P U : Finset String) (hT : Tdiff ⊆ U) :
    tableInvariant (pathwayContingencyTable Tdiff P U) U.card := by
  have hpin : P ∩ U ⊆ U := Finset.inter_subset_right
  have h1 : (Tdiff ∩ (P ∩ U)).card ≤ Tdiff.card :=
    Finset.card_le_card Finset.inter_subset_left
  have h2 : (Tdiff ∩ (P ∩ U)).card ≤ (P ∩ U).card :=
    Finset.card_le_card Finset.inter_subset_right
  have h3 : (Tdiff ∪ (P ∩ U)).card + (Tdiff ∩ (P ∩ U)).card
      = Tdiff.card + (P ∩ U).card := Finset.card_union_add_card_inter Tdiff (P ∩ U)
  have h4 : (Tdiff ∪ (P ∩ U)).card ≤ U.card :=
    Finset.card_le_card (Finset.union_subset hT hpin)
  simp only [tableInvariant, pathwayContingencyTable]
  refine ⟨by omega, by omega, by omega, by omega, by omega⟩

/-- C1: for every universe `U`, module set `M` and test set `T` with
`M ⊆ U` and `T ⊆ U`, the contingency tables built by `perform_fisher_test`
and by `pathway_enrichment_test` both satisfy `a + b + c + d = |U|` with all
four cells non-negative. -/
theorem C1_contingency_table_invariant (M T U : Finset String)
    (hM : M ⊆ U) (hT : T ⊆ U) :
    tableInvariant (contingencyTable M T U) U.card ∧
      tableInvariant (pathwayContingencyTable T M U) U.card :=
  ⟨contingencyTable_invariant M T U hM hT,
   pathwayContingencyTable_invariant T M U hT⟩

theorem C1_contingency_table_invariant_witness :
    (({"a"} : Finset String) ⊆ {"a", "b"}) ∧ (({"b"} : Finset String) ⊆ {"a", "b"}) ∧
      (tableInvariant (contingencyTable {"a"} {"b"} {"a", "b"}) ({"a", "b"} : Finset String).card ∧
        tableInvariant (pathwayContingencyTable {"b"} {"a"} {"a", "b"}) ({"a", "b"} : Finset String).card) :=
  ⟨by decide, by decide,
   C1_contingency_table_invariant {"a"} {"b"} {"a", "b"} (by decide) (by decide)⟩

theorem subset_backgroundFold (rows : List ModuleRow) (acc : Finset String) :
    acc ⊆ rows.foldl (fun a r => a ∪ parseMembers r.members) acc := by
  induction rows generalizing acc with
  | nil => exact fun x hx => hx
  | cons r rest ih =>
    intro x hx
    exact ih (acc ∪ parseMembers r.members) (Finset.mem_union_left _ hx)

theorem parse_subset_foldl (rows : List ModuleRow) (acc : Finset String)
    (r : ModuleRow) (hr : r ∈ rows) :
    parseMembers r.members ⊆ rows.foldl (fun a s => a ∪ parseMembers s.members) acc := by
  induction rows generalizing acc with
  | nil => cases hr
  | cons r0 rest ih =>
    rcases List.mem_cons.mp hr with h | h
    · subst h
      simp only [List.foldl_cons]
      exact fun x hx => subset_backgroundFold rest _ (Finset.mem_union_right _ hx)
    · simp only [List.foldl_cons]
      exact ih _ h

theorem parseMembers_subset_background (rows : List ModuleRow) (r : ModuleRow)
    (hr : r ∈ rows) : parseMembers r.members ⊆ backgroundGenes rows :=
  parse_subset_foldl rows ∅ r hr

theorem getModuleGenes_subset_background (rows : List ModuleRow) (mid : String) :
    getModuleGenes rows mid ⊆ backgroundGenes rows := by
  unfold getModuleGenes
  cases hfind : rows.find? (fun r => r.id == mid) with
  | none => exact Finset.empty_subset _
  | some r =>
    exact parseMembers_subset_background rows r (List.mem_of_find?_eq_some hfind)

/-- C9: in `module_enrichment_analysis.py` the background is the union of
all module gene sets and the query set is intersected with it before any
test, so for every module id both the module set and the (restricted) test
set are subsets of the universe, and the contingency table cells are
non-negative and sum to the background size — with no caller-side
precondition. -/
theorem C9_background_construction (rows : List ModuleRow)
    (query_genes : Finset String) (mid : String) :
    getModuleGenes rows mid ⊆ backgroundGenes rows ∧
      query_genes ∩ backgroundGenes rows ⊆ backgroundGenes rows ∧
      tableInvariant
        (contingencyTable (getModuleGenes rows mid)
          (query_genes ∩ backgroundGenes rows) (backgroundGenes rows))
        (backgroundGenes rows).card :=
  ⟨getModuleGenes_subset_background rows mid,
   Finset.inter_subset_right,
   contingencyTable_invariant _ _ _ (getModuleGenes_subset_background rows mid)
     Finset.inter_subset_right⟩

/-- C10: `pathway_enrichment_test` intersects the pathway with the
background but uses the test set as given, and for a test set that is not a
subset of the background the cell `d` is negative: with
`background = pathway = {A}` and `diff = {X, Y}` the table is
`(0, 2, 1, -2)`. -/
theorem C10_unrestricted_test_set_negative_d :
    pathwayContingencyTable {"X", "Y"} {"A"} {"A"} = (0, 2, 1, -2) ∧
      (pathwayContingencyTable {"X", "Y"} {"A"} {"A"}).2.2.2 < 0 ∧
      ¬ (({"X", "Y"} : Finset String) ⊆ {"A"}) := by
  refine ⟨by decide, by decide, by decide⟩

/-! ## Theorems: Fisher's exact test (C2, C3) -/

theorem reference_filter_eq_Icc (a b c d : ℕ) :
    (Finset.range (a + b + c + d + 1)).filter (fun k => a ≤ k ∧ k ≤ a + b ∧ k ≤ a + c)
      = Finset.Icc a (min (a + b) (a + c)) := by
  ext k
  simp only [Finset.mem_filter, Finset.mem_range, Finset.mem_Icc, le_min_iff]
  omega

theorem fisher_eq_referencePValue (a b c d : ℕ) :
    fisherPValueGreater a b c d = referencePValueGreater a b c d := by
  unfold fisherPValueGreater referencePValueGreater
  rw [reference_filter_eq_Icc]

theorem fisherPValue_nonneg (a b c d : ℕ) : 0 ≤ fisherPValueGreater a b c d := by
  unfold fisherPValueGreater
  apply div_nonneg
  · exact Finset.sum_nonneg fun k _ =>
      mul_nonneg (Nat.cast_nonneg _) (Nat.cast_nonneg _)
  · exact Nat.cast_nonneg _

theorem sum_hyperNum_range (a b c d : ℕ) :
    (Finset.range (a + c + 1)).sum (fun k => hyperNum a b c d k)
      = (((a + b + c + d).choose (a + c) : ℕ) : ℚ) := by
  have hv := Nat.add_choose_eq (a + b) (c + d) (a + c)
  rw [Finset.Nat.sum_antidiagonal_eq_sum_range_succ_mk] at hv
  have harr : a + b + (c + d) = a + b + c + d := by omega
  rw [harr] at hv
  unfold hyperNum
  rw [hv]
  push_cast
  rfl

theorem fisherPValue_le_one (a b c d : ℕ) : fisherPValueGreater a b c d ≤ 1 := by
  unfold fisherPValueGreater
  have hpos : (0 : ℚ) < (((a + b + c + d).choose (a + c) : ℕ) : ℚ) := by
    exact_mod_cast Nat.choose_pos (by omega : a + c ≤ a + b + c + d)
  rw [div_le_one hpos]
  calc (Finset.Icc a (min (a + b) (a + c))).sum (fun k => hyperNum a b c d k)
      ≤ (Finset.range (a + c + 1)).sum (fun k => hyperNum a b c d k) := by
        apply Finset.sum_le_sum_of_subset_of_nonneg
        · intro k hk
          simp only [Finset.mem_Icc, le_min_iff] at hk
          simp only [Finset.mem_range]
          omega
        · intro k _ _
          exact mul_nonneg (Nat.cast_nonneg _) (Nat.cast_nonneg _)
    _ = _ := sum_hyperNum_range a b c d

theorem fisherOdds_eq_referenceOdds (a b c d : ℕ) :
    fisherOdds a b c d = referenceOdds a b c d := by
  unfold fisherOdds referenceOdds
  rcases Nat.eq_zero_or_pos b with hb | hb
  · simp [hb]
  rcases Nat.eq_zero_or_pos c with hc | hc
  · simp [hc]
  have hbne : b ≠ 0 := Nat.pos_iff_ne_zero.mp hb
  have hcne : c ≠ 0 := Nat.pos_iff_ne_zero.mp hc
  have hbq : (b : ℚ) ≠ 0 := Nat.cast_ne_zero.mpr hbne
  have hcq : (c : ℚ) ≠ 0 := Nat.cast_ne_zero.mpr hcne
  rw [if_neg (by simp [Nat.mul_eq_zero, hbne, hcne]), if_neg (by simp [hbne, hcne])]
  rcases Nat.eq_zero_or_pos d with hd | hd
  · simp [hd]
  have hdq : (d : ℚ) ≠ 0 := Nat.cast_ne_zero.mpr (Nat.pos_iff_ne_zero.mp hd)
  congr 1
  field_simp

/-- C2: on every contingency table produced by the enrichment functions
(inputs restricted to the universe), `perform_fisher_test` and
`pathway_enrichment_test` return the one-sided 'greater' Fisher p-value and
odds ratio agreeing with the reference definitions, with the p-value in
`[0, 1]`. -/
theorem C2_fisher_evaluator_reference (M T U : Finset String)
    (hM : M ⊆ U) (hT : T ⊆ U) :
    (performFisherTest M T U).2.1 = referencePValueT (tableToNat (contingencyTable M T U)) ∧
      (performFisherTest M T U).2.2.1 = referenceOddsT (tableToNat (contingencyTable M T U)) ∧
      0 ≤ (performFisherTest M T U).2.1 ∧ (performFisherTest M T U).2.1 ≤ 1 ∧
      (pathwayEnrichmentTest T M U).p_value
        = referencePValueT (tableToNat (pathwayContingencyTable T M U)) ∧
      (pathwayEnrichmentTest T M U).odds
        = referenceOddsT (tableToNat (pathwayContingencyTable T M U)) ∧
      0 ≤ (pathwayEnrichmentTest T M U).p_value ∧
      (pathwayEnrichmentTest T M U).p_value ≤ 1 := by
  simp only [performFisherTest, pathwayEnrichmentTest, referencePValueT, referenceOddsT,
    tableToNat]
  exact ⟨fisher_eq_referencePValue _ _ _ _, fisherOdds_eq_referenceOdds _ _ _ _,
    fisherPValue_nonneg _ _ _ _, fisherPValue_le_one _ _ _ _,
    fisher_eq_referencePValue _ _ _ _, fisherOdds_eq_referenceOdds _ _ _ _,
    fisherPValue_nonneg _ _ _ _, fisherPValue_le_one _ _ _ _⟩

theorem C2_fisher_evaluator_reference_witness :
    (({"a"} : Finset String) ⊆ {"a", "b"}) ∧ (({"a"} : Finset String) ⊆ {"a", "b"}) ∧
      ((performFisherTest {"a"} {"a"} {"a", "b"}).2.1
          = referencePValueT (tableToNat (contingencyTable {"a"} {"a"} {"a", "b"})) ∧
        (performFisherTest {"a"} {"a"} {"a", "b"}).2.2.1
          = referenceOddsT (tableToNat (contingencyTable {"a"} {"a"} {"a", "b"})) ∧
        0 ≤ (performFisherTest {"a"} {"a"} {"a", "b"}).2.1 ∧
        (performFisherTest {"a"} {"a"} {"a", "b"}).2.1 ≤ 1 ∧
        (pathwayEnrichmentTest {"a"} {"a"} {"a", "b"}).p_value
          = referencePValueT (tableToNat (pathwayContingencyTable {"a"} {"a"} {"a", "b"})) ∧
        (pathwayEnrichmentTest {"a"} {"a"} {"a", "b"}).odds
          = referenceOddsT (tableToNat (pathwayContingencyTable {"a"} {"a"} {"a", "b"})) ∧
        0 ≤ (pathwayEnrichmentTest {"a"} {"a"} {"a", "b"}).p_value ∧
        (pathwayEnrichmentTest {"a"} {"a"} {"a", "b"}).p_value ≤ 1) :=
  ⟨by decide, by decide,
   C2_fisher_evaluator_reference {"a"} {"a"} {"a", "b"} (by decide) (by decide)⟩

/-- C3: for universe `{G1..G10}`, module `{G1,G2,G3}`, test set
`{G1,G2,G9}`, the builder produces the table `(2, 1, 1, 6)` and the
evaluator's p-value and odds ratio equal the reference computation for that
exact table (`p = 11/60`, odds ratio `12`). -/
theorem C3_worked_example :
    contingencyTable {"G1", "G2", "G3"} {"G1", "G2", "G9"}
        {"G1", "G2", "G3", "G4", "G5", "G6", "G7", "G8", "G9", "G10"} = (2, 1, 1, 6) ∧
      fisherPValueGreater 2 1 1 6 = referencePValueGreater 2 1 1 6 ∧
      fisherPValueGreater 2 1 1 6 = 11 / 60 ∧
      fisherOdds 2 1 1 6 = referenceOdds 2 1 1 6 ∧
      fisherOdds 2 1 1 6 = some 12 := by
  refine ⟨by decide, fisher_eq_referencePValue 2 1 1 6, ?_, fisherOdds_eq_referenceOdds 2 1 1 6, ?_⟩
  · unfold fisherPValueGreater hyperNum
    norm_num
    rw [show Finset.Icc (2 : ℕ) 3 = {2, 3} by decide]
    rw [Finset.sum_insert (by decide), Finset.sum_singleton]
    norm_num [Nat.choose]
  · unfold fisherOdds
    norm_num

/-! ## Theorems: empty modules are skipped (C6) -/

/-- C6: a module whose `Members` field is empty or missing has an empty
parsed gene set; such a module contributes no row to the result collection
(its id never appears as a `module_id`), and removing its id from the
processing loop leaves the results of the remaining modules unchanged --
the loop simply continues. -/
theorem C6_empty_module_skipped (rows : List ModuleRow) (query_genes : Finset String)
    (mid : String) (hempty : getModuleGenes rows mid = ∅) :
    (∀ r ∈ runEnrichment rows query_genes, r.module_id ≠ mid) ∧
      (∀ (q bg : Finset String) (ids1 ids2 : List String),
        processIds rows q bg (ids1 ++ mid :: ids2) = processIds rows q bg (ids1 ++ ids2)) := by
  constructor
  · intro r hr
    simp only [runEnrichment, processIds, List.mem_filterMap] at hr
    obtain ⟨mid2, _, heq⟩ := hr
    by_cases h : getModuleGenes rows mid2 = ∅
    · simp [h] at heq
    · simp only [if_neg h] at heq
      intro hcontra
      apply h
      have hr2 : r.module_id = mid2 := by
        have := Option.some.inj heq
        rw [← this]
      rw [← hr2, hcontra, hempty]
  · intro q bg ids1 ids2
    simp only [processIds, List.filterMap_append, List.filterMap_cons, hempty, if_pos]

theorem C6_empty_module_skipped_witness :
    getModuleGenes [⟨"M1", "P1", some ""⟩, ⟨"M2", "P2", some "g1,g2"⟩] "M1" = ∅ ∧
      processIds [⟨"M1", "P1", some ""⟩, ⟨"M2", "P2", some "g1,g2"⟩] {"g1"} {"g1", "g2"}
          (["M2"] ++ "M1" :: []) =
        processIds [⟨"M1", "P1", some ""⟩, ⟨"M2", "P2", some "g1,g2"⟩] {"g1"} {"g1", "g2"}
          (["M2"] ++ []) :=
  ⟨by decide,
   (C6_empty_module_skipped [⟨"M1", "P1", some ""⟩, ⟨"M2", "P2", some "g1,g2"⟩]
       {"g1"} "M1" (by decide)).2 {"g1"} {"g1", "g2"} ["M2"] []⟩

/-! ## Theorems: UniProt id conversion (C7) -/

theorem find?_filter_ne (m : List (String × String)) (k k2 : String) (h : k2 ≠ k) :
    (m.filter (fun kv => kv.1 != k)).find? (fun kv => kv.1 == k2)
      = m.find? (fun kv => kv.1 == k2) := by
  induction m with
  | nil => rfl
  | cons kv rest ih =>
    by_cases h1 : kv.1 = k
    · have h2 : (kv.1 == k2) = false := by
        simp only [beq_eq_false_iff_ne, ne_eq, h1]
        exact fun hh => h hh.symm
      have h3 : (k == k2) = false := by
        simp only [beq_eq_false_iff_ne, ne_eq]
        exact fun hh => h hh.symm
      simp [List.filter_cons, h1, List.find?_cons, h2, h3, ih]
    · by_cases h2 : kv.1 = k2
      · simp [List.filter_cons, h1, List.find?_cons, h2, h]
      · simp [List.filter_cons, h1, List.find?_cons, h2, ih]

theorem alookup_aset_self (m : List (String × String)) (k v : String) :
    alookup (aset m k v) k = some v := by
  simp [alookup, aset, List.find?_cons]

theorem alookup_aset_ne (m : List (String × String)) (k v k2 : String) (h : k2 ≠ k) :
    alookup (aset m k v) k2 = alookup m k2 := by
  have h2 : (k == k2) = false := by
    simp only [beq_eq_false_iff_ne, ne_eq]
    exact fun hh => h hh.symm
  simp [alookup, aset, List.find?_cons, h2, find?_filter_ne m k k2 h]

theorem alookup_foldl_symbol (l : List String) (cache : List (String × String))
    (k : String) (h : k ∈ l ∨ alookup cache k = some k) :
    alookup (l.foldl (fun c id => aset c id id) cache) k = some k := by
  induction l generalizing cache with
  | nil =>
    rcases h with h | h
    · cases h
    · exact h
  | cons x xs ih =>
    simp only [List.foldl_cons]
    by_cases hx : x = k
    · subst hx
      exact ih (aset cache x x) (Or.inr (alookup_aset_self cache x x))
    · rcases h with h | h
      · rcases List.mem_cons.mp h with h | h
        · exact absurd h.symm hx
        · exact ih _ (Or.inl h)
      · refine ih _ (Or.inr ?_)
        rw [alookup_aset_ne cache x x k (fun hh => hx hh.symm)]
        exact h

theorem alookup_foldl_pairs_ne (rl : List (String × String))
    (cache : List (String × String)) (k : String) (h : ∀ kv ∈ rl, kv.1 ≠ k) :
    alookup (rl.foldl (fun c kv => aset c kv.1 kv.2) cache) k = alookup cache k := by
  induction rl generalizing cache with
  | nil => rfl
  | cons kv rest ih =>
    simp only [List.foldl_cons]
    rw [ih _ (fun x hx => h x (List.mem_cons_of_mem kv hx))]
    exact alookup_aset_ne cache kv.1 kv.2 k
      (fun hh => h kv (List.mem_cons_self kv rest) hh.symm)

theorem mem_aset (m : List (String × String)) (k v : String)
    (kv : String × String) (h : kv ∈ aset m k v) : kv = (k, v) ∨ kv ∈ m := by
  rcases List.mem_cons.mp h with h | h
  · exact Or.inl h
  · exact Or.inr (List.mem_of_mem_filter h)

theorem apiResult_keys (api : String → Option String) (l : List String)
    (acc : List (String × String)) (P : String → Prop)
    (hacc : ∀ kv ∈ acc, P kv.1) (hl : ∀ id ∈ l, P id) :
    ∀ kv ∈ l.foldl (fun acc2 id =>
        match api id with
        | some g => aset acc2 id g
        | none => acc2) acc, P kv.1 := by
  induction l generalizing acc with
  | nil => exact hacc
  | cons x xs ih =>
    simp only [List.foldl_cons]
    apply ih
    · cases hapi : api x with
      | none => exact hacc
      | some g =>
        intro kv hkv
        rcases mem_aset acc x g kv hkv with h | h
        · rw [h]
          exact hl x (List.mem_cons_self x xs)
        · exact hacc kv h
    · exact fun id hid => hl id (List.mem_cons_of_mem x hid)

theorem alookup_filterMap_combined (cache2 : List (String × String))
    (batch : List String) (id : String) (hid : id ∈ batch)
    (hc : alookup cache2 id = some id) :
    alookup (batch.filterMap (fun id2 =>
        match alookup cache2 id2 with
        | some g => some (id2, g)
        | none => if id2 != "" then some (id2, id2) else none)) id = some id := by
  induction batch with
  | nil => cases hid
  | cons x xs ih =>
    by_cases hx : x = id
    · subst hx
      simp only [List.filterMap_cons, hc]
      simp [alookup, List.find?_cons]
    · have hxs : id ∈ xs := by
        rcases List.mem_cons.mp hid with h | h
        · exact absurd h.symm hx
        · exact h
      have hne : (x == id) = false := by
        simp only [beq_eq_false_iff_ne, ne_eq]
        exact hx
      simp only [List.filterMap_cons]
      cases hcx : alookup cache2 x with
      | some g =>
        simp only [alookup, List.find?_cons, hne, cond_false]
        exact ih hxs
      | none =>
        by_cases hxe : x = ""
        · simp only [hxe]
          simp only [bne_self_eq_false]
          simp only [Bool.false_eq_true, if_false]
          exact ih hxs
        · have : (x != "") = true := by simp [hxe]
          simp only [this, if_true]
          simp only [alookup, List.find?_cons, hne, cond_false]
          exact ih hxs

/-- C7 (counterexample): the empty string does not match the accession
pattern, yet `convert_ids_batch` neither maps it to itself in the returned
mapping (the mapping is empty) nor counts it under `already_gene_symbols`
(falsy ids are silently dropped by the `if id and isinstance(id, str)`
guards). -/
theorem C7_counterexample_empty_id :
    uniprotMatch "" = false ∧
      (convertIdsBatch (fun _ => none) freshConvState [""]).1 = [] ∧
      (convertIdsBatch (fun _ => none) freshConvState [""]).2.stats.already_gene_symbols
        = 0 := by
  refine ⟨by decide, by decide, by decide⟩

/-- C7 (amended): every NON-EMPTY identifier in the batch that is not
already cached and does not match the accession pattern is mapped to itself
in the returned mapping, is counted under `already_gene_symbols`, and is
never part of `valid_uniprot_ids` — the list from which every remote API
query is built; conversely only pattern-matching identifiers are queried. -/
theorem C7_gene_symbol_passthrough (api : String → Option String)
    (st : ConvState) (batch : List String) (id : String)
    (hid : id ∈ batch) (hne : id ≠ "") (hnm : uniprotMatch id = false)
    (hcache : alookup st.id_to_gene_cache id = none) :
    alookup (convertIdsBatch api st batch).1 id = some id ∧
      id ∈ geneSymbolIds st.id_to_gene_cache batch ∧
      (convertIdsBatch api st batch).2.stats.already_gene_symbols
        = st.stats.already_gene_symbols
          + (geneSymbolIds st.id_to_gene_cache batch).length ∧
      id ∉ validUniprotIds st.id_to_gene_cache batch ∧
      (∀ q ∈ validUniprotIds st.id_to_gene_cache batch, uniprotMatch q = true) := by
  have hmemq : id ∈ idsToQuery st.id_to_gene_cache batch := by
    simp [idsToQuery, List.mem_filter, hcache, hid]
  have hsym : id ∈ geneSymbolIds st.id_to_gene_cache batch := by
    simp only [geneSymbolIds, List.mem_filter]
    refine ⟨hmemq, ?_⟩
    simp [hne, hnm]
  have hvalid_match : ∀ q ∈ validUniprotIds st.id_to_gene_cache batch,
      uniprotMatch q = true := by
    intro q hq
    simp only [validUniprotIds, List.mem_filter, Bool.and_eq_true] at hq
    exact hq.2.2
  have hnotvalid : id ∉ validUniprotIds st.id_to_gene_cache batch := by
    intro hmem
    rw [hvalid_match id hmem] at hnm
    cases hnm
  refine ⟨?_, hsym, rfl, hnotvalid, hvalid_match⟩
  show alookup (List.filterMap _ batch) id = some id
  apply alookup_filterMap_combined _ batch id hid
  have hcache1 : alookup ((geneSymbolIds st.id_to_gene_cache batch).foldl
      (fun c id2 => aset c id2 id2) st.id_to_gene_cache) id = some id :=
    alookup_foldl_symbol _ _ id (Or.inl hsym)
  have hresult_keys : ∀ kv ∈ (validUniprotIds st.id_to_gene_cache batch).foldl
      (fun acc id2 => match api id2 with
        | some g => aset acc id2 g
        | none => acc) [], kv.1 ≠ id := by
    apply apiResult_keys api _ [] (fun k => k ≠ id)
    · intro kv hkv
      cases hkv
    · intro q hq hqid
      rw [hqid] at hq
      exact hnotvalid hq
  exact (alookup_foldl_pairs_ne _ _ id hresult_keys).trans hcache1

theorem C7_gene_symbol_passthrough_witness :
    "FOO" ∈ ["FOO"] ∧ "FOO" ≠ "" ∧ uniprotMatch "FOO" = false ∧
      alookup freshConvState.id_to_gene_cache "FOO" = none ∧
      alookup (convertIdsBatch (fun _ => none) freshConvState ["FOO"]).1 "FOO"
        = some "FOO" :=
  ⟨by decide, by decide, by decide, by decide,
   (C7_gene_symbol_passthrough (fun _ => none) freshConvState ["FOO"] "FOO"
      (by decide) (by decide) (by decide) (by decide)).1⟩

/-! ## Theorems: HTTP retry behaviour (C8) -/

theorem retryLoop_attempts_le (net : ℕ → Option (List (String × String)))
    (fuel k : ℕ) : (retryLoop net k fuel).2.1 ≤ k + fuel := by
  induction fuel generalizing k with
  | zero => simp [retryLoop]
  | succ fuel ih =>
    simp only [retryLoop]
    cases net k with
    | some a => simp
    | none =>
      simp only []
      have := ih (k + 1)
      omega

theorem querySearchApi_attempts (net : ℕ → ℕ → Option (List (String × String)))
    (l : List (ℕ × List String)) (acc : List (String × String) × List ℕ) :
    (l.foldl (fun acc2 ch =>
        ((acc2.1 ++ ((queryWithRetry (net ch.1)).1.getD []) : List (String × String)),
          acc2.2 ++ [(queryWithRetry (net ch.1)).2.1])) acc).2
      = acc.2 ++ l.map (fun ch => (queryWithRetry (net ch.1)).2.1) := by
  induction l generalizing acc with
  | nil => simp
  | cons x xs ih =>
    simp only [List.foldl_cons, List.map_cons]
    rw [ih]
    simp

/-- C8 (counterexample): the taxonomy-lookup request of
`_get_taxonomy_id` is issued exactly once — a transient network failure is
not retried at all (there is no retry loop), the function errors out, and
the conversion aborts rather than continuing. -/
theorem C8_counterexample_taxonomy_no_retry :
    (getTaxonomyId (fun _ => none) "mouse").2 = 1 ∧
      (getTaxonomyId (fun _ => none) "mouse").1
        = Except.error "Error connecting to UniProt taxonomy API for mouse" :=
  ⟨rfl, rfl⟩

/-- C8 (amended): the requests issued by `_query_uniprot_search_api` are
attempted at most 3 times each; a first-attempt success is not retried;
when all three attempts fail the backoff sleeps are 2 s then 4 s
(`2 * retry_count`, equal to `2^1, 2^2`), the chunk is given up, and the
chunk loop still processes every chunk (one attempt count per chunk). -/
theorem C8_query_retry_bound (net : ℕ → ℕ → Option (List (String × String)))
    (ids : List String) :
    (∀ i, (queryWithRetry (net i)).2.1 ≤ 3) ∧
      (∀ rows i, net i 0 = some rows → queryWithRetry (net i) = (some rows, 1, [])) ∧
      queryWithRetry (fun _ => none) = (none, 3, [2, 4]) ∧
      (querySearchApi net ids).2.length = (chunks10 ids).length ∧
      (∀ a ∈ (querySearchApi net ids).2, a ≤ 3) := by
  have hle : ∀ i, (queryWithRetry (net i)).2.1 ≤ 3 := by
    intro i
    have := retryLoop_attempts_le (net i) 3 0
    simpa [queryWithRetry] using this
  have hsnd := querySearchApi_attempts net ((chunks10 ids).enum) ([], [])
  refine ⟨hle, ?_, by decide, ?_, ?_⟩
  · intro rows i hnet
    simp [queryWithRetry, retryLoop, hnet]
  · show ((chunks10 ids).enum.foldl _ ([], [])).2.length = (chunks10 ids).length
    rw [hsnd]
    simp [List.enum_length]
  · show ∀ a ∈ ((chunks10 ids).enum.foldl _ ([], [])).2, a ≤ 3
    rw [hsnd]
    intro a ha
    simp only [List.nil_append, List.mem_map] at ha
    obtain ⟨ch, _, hch⟩ := ha
    rw [← hch]
    exact hle ch.1

/-! ## Theorems: Benjamini-Hochberg FDR (C4) -/

theorem length_suffixMins (l : List ℚ) : (suffixMins l).length = l.length := by
  induction l with
  | nil => rfl
  | cons p rest ih =>
    cases h : suffixMins rest with
    | nil =>
      have h0 : rest.length = 0 := by rw [← ih, h]; rfl
      simp only [suffixMins, h, List.length_cons, List.length_nil, h0]
    | cons q qs =>
      have h0 : qs.length + 1 = rest.length := by rw [← ih, h]; rfl
      simp only [suffixMins, h, List.length_cons]
      omega

theorem suffixMins_sorted (l : List ℚ) : (suffixMins l).Sorted (· ≤ ·) := by
  induction l with
  | nil => simp [suffixMins]
  | cons p rest ih =>
    simp only [suffixMins]
    cases h : suffixMins rest with
    | nil => simp
    | cons q qs =>
      rw [h] at ih
      refine List.sorted_cons.mpr ⟨?_, ih⟩
      intro b hb
      rcases List.mem_cons.mp hb with hbq | hbq
      · rw [hbq]
        exact min_le_right p q
      · exact le_trans (min_le_right p q) ((List.sorted_cons.mp ih).1 b hbq)

theorem le_suffixMins_get (l : List ℚ) (c : ℚ) :
    ∀ i (h : i < (suffixMins l).length),
      (∀ j (hj : j < l.length), i ≤ j → c ≤ l.get ⟨j, hj⟩) →
      c ≤ (suffixMins l).get ⟨i, h⟩ := by
  induction l with
  | nil =>
    intro i h
    simp [suffixMins] at h
  | cons p rest ih =>
    intro i h hbound
    have hlen := length_suffixMins rest
    rcases hrest : suffixMins rest with _ | ⟨q, qs⟩
    · have hrest0 : rest = [] := by
        rw [hrest] at hlen
        exact (List.length_eq_zero.mp hlen.symm)
      subst hrest0
      have hi0 : i = 0 := by
        simp only [suffixMins] at h
        rcases hrest2 : suffixMins ([] : List ℚ) with _ | _
        · simp [suffixMins] at h
          omega
        · simp [suffixMins] at hrest2
      subst hi0
      have : (suffixMins [p]).get ⟨0, h⟩ = p := by
        simp [suffixMins]
      rw [this]
      exact hbound 0 (by simp) (le_refl 0)
    · rw [hrest] at hlen
      have hsm : suffixMins (p :: rest) = min p q :: q :: qs := by
        simp only [suffixMins, hrest]
      have hlen2 : (suffixMins (p :: rest)).length = qs.length + 2 := by
        rw [hsm]
        rfl
      have h0rest : 0 < (suffixMins rest).length := by
        rw [hrest]
        simp
      rcases i with _ | i2
      · have hget : (suffixMins (p :: rest)).get ⟨0, h⟩ = min p q := by
          rw [List.get_of_eq hsm]
          rfl
        rw [hget]
        refine le_min ?_ ?_
        · exact hbound 0 (by simp) (le_refl 0)
        · have hq : (suffixMins rest).get ⟨0, h0rest⟩ = q := by
            rw [List.get_of_eq hrest]
            rfl
          rw [← hq]
          refine ih 0 h0rest ?_
          intro j hj _
          exact hbound (j + 1) (by simpa using Nat.succ_lt_succ hj) (by omega)
      · have hi2 : i2 < (suffixMins rest).length := by
          rw [hlen2] at h
          rw [hrest]
          simp only [List.length_cons]
          omega
        have hget : (suffixMins (p :: rest)).get ⟨i2 + 1, h⟩
            = (suffixMins rest).get ⟨i2, hi2⟩ := by
          rw [List.get_of_eq hsm, List.get_of_eq hrest]
          rfl
        rw [hget]
        refine ih i2 hi2 ?_
        intro j hj hij
        exact hbound (j + 1) (by simpa using Nat.succ_lt_succ hj) (by omega)

theorem length_bhRawSorted (ps : List ℚ) : (bhRawSorted ps).length = ps.length := by
  simp [bhRawSorted, List.enum_length]

theorem bhRawSorted_get (ps : List ℚ) (j : ℕ) (hj : j < (bhRawSorted ps).length)
    (hj2 : j < ps.length) :
    (bhRawSorted ps).get ⟨j, hj⟩ = ps.get ⟨j, hj2⟩ / ecdfFactor ps.length j := by
  simp [bhRawSorted, List.get_eq_getElem, List.getElem_map, List.getElem_enum]

theorem length_bhAdjustSorted (ps : List ℚ) : (bhAdjustSorted ps).length = ps.length := by
  simp [bhAdjustSorted, length_suffixMins, length_bhRawSorted]

theorem bhAdjustSorted_sorted (ps : List ℚ) : (bhAdjustSorted ps).Sorted (· ≤ ·) := by
  unfold bhAdjustSorted
  exact List.Pairwise.map _ (fun a b hab => min_le_min hab (le_refl 1))
    (suffixMins_sorted (bhRawSorted ps))

theorem sorted_le_bhAdjustSorted (qs : List ℚ) (hs : qs.Sorted (· ≤ ·))
    (h01 : ∀ p ∈ qs, 0 ≤ p ∧ p ≤ 1) (i : ℕ) (hi : i < qs.length)
    (hi2 : i < (bhAdjustSorted qs).length) :
    qs.get ⟨i, hi⟩ ≤ (bhAdjustSorted qs).get ⟨i, hi2⟩ := by
  have hlen : (suffixMins (bhRawSorted qs)).length = qs.length := by
    rw [length_suffixMins, length_bhRawSorted]
  have hi3 : i < (suffixMins (bhRawSorted qs)).length := by omega
  have hmin : (bhAdjustSorted qs).get ⟨i, hi2⟩
      = min ((suffixMins (bhRawSorted qs)).get ⟨i, hi3⟩) 1 := by
    unfold bhAdjustSorted
    simp [List.get_eq_getElem, List.getElem_map]
  rw [hmin]
  refine le_min ?_ (h01 _ (List.get_mem qs i hi)).2
  apply le_suffixMins_get
  intro j hj hij
  have hj2 : j < qs.length := by
    rw [← length_bhRawSorted qs]
    exact hj
  rw [bhRawSorted_get qs j hj hj2]
  have hij2 : qs.get ⟨i, hi⟩ ≤ qs.get ⟨j, hj2⟩ :=
    hs.rel_get_of_le (Fin.mk_le_mk.mpr hij)
  have h0j : (0 : ℚ) ≤ qs.get ⟨j, hj2⟩ := (h01 _ (List.get_mem qs j hj2)).1
  have hnpos : (0 : ℚ) < (qs.length : ℚ) := by
    exact_mod_cast (by omega : 0 < qs.length)
  have hfpos : 0 < ecdfFactor qs.length j := by
    unfold ecdfFactor
    positivity
  have hf1 : ecdfFactor qs.length j ≤ 1 := by
    unfold ecdfFactor
    rw [div_le_one hnpos]
    exact_mod_cast (by omega : j + 1 ≤ qs.length)
  calc qs.get ⟨i, hi⟩ ≤ qs.get ⟨j, hj2⟩ := hij2
    _ ≤ qs.get ⟨j, hj2⟩ / ecdfFactor qs.length j := by
        rw [le_div_iff hfpos]
        exact mul_le_of_le_one_right h0j hf1

theorem pairwise_zip_fst {α β : Type} {R : α → α → Prop} :
    ∀ (l1 : List α) (l2 : List β), l1.Pairwise R →
      (l1.zip l2).Pairwise (fun x y => R x.1 y.1) := by
  intro l1
  induction l1 with
  | nil => intro l2 _; simp
  | cons a l1 ih =>
    intro l2 h
    cases l2 with
    | nil => simp
    | cons b l2 =>
      rcases List.pairwise_cons.mp h with ⟨h1, h2⟩
      refine List.pairwise_cons.mpr ⟨?_, ih l2 h2⟩
      intro y hy
      exact h1 y.1 (List.of_mem_zip hy).1

theorem pairwise_zip_snd {α β : Type} {R : β → β → Prop} :
    ∀ (l1 : List α) (l2 : List β), l2.Pairwise R →
      (l1.zip l2).Pairwise (fun x y => R x.2 y.2) := by
  intro l1
  induction l1 with
  | nil => intro l2 _; simp
  | cons a l1 ih =>
    intro l2 h
    cases l2 with
    | nil => simp
    | cons b l2 =>
      rcases List.pairwise_cons.mp h with ⟨h1, h2⟩
      refine List.pairwise_cons.mpr ⟨?_, ih l2 h2⟩
      intro y hy
      exact h1 y.2 (List.of_mem_zip hy).2

theorem leSnd_trans (a b c : ℕ × ℚ) (h1 : decide (a.2 ≤ b.2) = true)
    (h2 : decide (b.2 ≤ c.2) = true) : decide (a.2 ≤ c.2) = true := by
  simp only [decide_eq_true_eq] at h1 h2 ⊢
  exact le_trans h1 h2

theorem leSnd_total (a b : ℕ × ℚ) :
    (decide (a.2 ≤ b.2) || decide (b.2 ≤ a.2)) = true := by
  simp only [Bool.or_eq_true, decide_eq_true_eq]
  exact le_total a.2 b.2

theorem leFst_trans (a b c : ℕ × ℚ) (h1 : decide (a.1 ≤ b.1) = true)
    (h2 : decide (b.1 ≤ c.1) = true) : decide (a.1 ≤ c.1) = true := by
  simp only [decide_eq_true_eq] at h1 h2 ⊢
  exact le_trans h1 h2

theorem leFst_total (a b : ℕ × ℚ) :
    (decide (a.1 ≤ b.1) || decide (b.1 ≤ a.1)) = true := by
  simp only [Bool.or_eq_true, decide_eq_true_eq]
  exact le_total a.1 b.1

theorem length_multipletestsFdrBh (ps : List ℚ) :
    (multipletestsFdrBh ps).length = ps.length := by
  unfold multipletestsFdrBh
  rw [List.length_map, List.length_mergeSort, List.length_zip, List.length_map,
    List.length_mergeSort, List.enum_length, length_bhAdjustSorted, List.length_map,
    List.length_mergeSort, List.enum_length, min_self]

theorem unsorted_restore_ge (ps : List ℚ) (h01 : ∀ p ∈ ps, 0 ≤ p ∧ p ≤ 1)
    (sp : List (ℕ × ℚ)) (hperm : sp.Perm ps.enum)
    (hsorted : sp.Pairwise (fun x y => x.2 ≤ y.2)) (i : ℕ) (hi : i < ps.length)
    (hi2 : i < ((((sp.map Prod.fst).zip (bhAdjustSorted (sp.map Prod.snd))).mergeSort
        (fun x y => decide (x.1 ≤ y.1))).map Prod.snd).length) :
    ps.get ⟨i, hi⟩ ≤ ((((sp.map Prod.fst).zip (bhAdjustSorted (sp.map Prod.snd))).mergeSort
        (fun x y => decide (x.1 ≤ y.1))).map Prod.snd).get ⟨i, hi2⟩ := by
  have hlen_sp : sp.length = ps.length := by
    rw [hperm.length_eq, List.enum_length]
  have hlen_qs : (sp.map Prod.snd).length = ps.length := by
    rw [List.length_map, hlen_sp]
  have hlen_adj : (bhAdjustSorted (sp.map Prod.snd)).length = ps.length := by
    rw [length_bhAdjustSorted, hlen_qs]
  have hlen_zip : ((sp.map Prod.fst).zip (bhAdjustSorted (sp.map Prod.snd))).length
      = ps.length := by
    rw [List.length_zip, List.length_map, hlen_sp, hlen_adj, min_self]
  have hqs_sorted : (sp.map Prod.snd).Pairwise (· ≤ ·) :=
    List.pairwise_map.mpr hsorted
  have hqs_mem : ∀ p ∈ sp.map Prod.snd, 0 ≤ p ∧ p ≤ 1 := by
    intro p hp
    obtain ⟨pr, hpr, hpr2⟩ := List.mem_map.mp hp
    have hpr3 : pr ∈ ps.enum := hperm.mem_iff.mp hpr
    have hpr4 : ps[pr.1]? = some pr.2 := List.mem_enum_iff_getElem?.mp hpr3
    rw [← hpr2]
    exact h01 _ (List.getElem?_mem hpr4)
  have hgood : ∀ x ∈ (sp.map Prod.fst).zip (bhAdjustSorted (sp.map Prod.snd)),
      ∀ hx : x.1 < ps.length, ps.get ⟨x.1, hx⟩ ≤ x.2 := by
    intro x hxmem
    obtain ⟨⟨j, hj⟩, hjx⟩ := List.mem_iff_get.mp hxmem
    have hjn : j < ps.length := by rw [← hlen_zip]; exact hj
    have hj_sp : j < sp.length := by rw [hlen_sp]; exact hjn
    have hj_qs : j < (sp.map Prod.snd).length := by rw [hlen_qs]; exact hjn
    have hj_adj : j < (bhAdjustSorted (sp.map Prod.snd)).length := by
      rw [hlen_adj]; exact hjn
    have hx_eq : x = ((sp.get ⟨j, hj_sp⟩).1,
        (bhAdjustSorted (sp.map Prod.snd)).get ⟨j, hj_adj⟩) := by
      rw [← hjx]
      simp [List.get_eq_getElem, List.getElem_zip, List.getElem_map]
    subst hx_eq
    intro hx
    have hmem_enum : sp.get ⟨j, hj_sp⟩ ∈ ps.enum :=
      hperm.mem_iff.mp (List.get_mem sp j hj_sp)
    have hps : ps[(sp.get ⟨j, hj_sp⟩).1]? = some (sp.get ⟨j, hj_sp⟩).2 :=
      List.mem_enum_iff_getElem?.mp hmem_enum
    have hps_get : ps.get ⟨(sp.get ⟨j, hj_sp⟩).1, hx⟩ = (sp.get ⟨j, hj_sp⟩).2 := by
      have h6 := List.getElem?_eq_getElem hx
      rw [h6] at hps
      exact Option.some.inj hps
    rw [hps_get]
    have hsnd : (sp.get ⟨j, hj_sp⟩).2 = (sp.map Prod.snd).get ⟨j, hj_qs⟩ := by
      simp [List.get_eq_getElem, List.getElem_map]
    rw [hsnd]
    exact sorted_le_bhAdjustSorted _ hqs_sorted hqs_mem j hj_qs hj_adj
  have hout_perm := List.mergeSort_perm
    ((sp.map Prod.fst).zip (bhAdjustSorted (sp.map Prod.snd)))
    (fun x y => decide (x.1 ≤ y.1))
  have hout_len : (((sp.map Prod.fst).zip (bhAdjustSorted (sp.map Prod.snd))).mergeSort
      (fun x y => decide (x.1 ≤ y.1))).length = ps.length := by
    rw [List.length_mergeSort, hlen_zip]
  have hi_out : i < (((sp.map Prod.fst).zip (bhAdjustSorted (sp.map Prod.snd))).mergeSort
      (fun x y => decide (x.1 ≤ y.1))).length := by
    rw [hout_len]; exact hi
  have hout_sorted : (((sp.map Prod.fst).zip (bhAdjustSorted (sp.map Prod.snd))).mergeSort
      (fun x y => decide (x.1 ≤ y.1))).Pairwise (fun x y => x.1 ≤ y.1) :=
    (List.sorted_mergeSort leFst_trans leFst_total _).imp (fun h => of_decide_eq_true h)
  have hfst_eq : (((sp.map Prod.fst).zip (bhAdjustSorted (sp.map Prod.snd))).mergeSort
      (fun x y => decide (x.1 ≤ y.1))).map Prod.fst = List.range ps.length := by
    refine List.eq_of_perm_of_sorted ?_ (List.pairwise_map.mpr hout_sorted)
      (List.pairwise_le_range ps.length)
    have h1 := hout_perm.map Prod.fst
    have h2 : ((sp.map Prod.fst).zip (bhAdjustSorted (sp.map Prod.snd))).map Prod.fst
        = sp.map Prod.fst :=
      List.map_fst_zip _ _ (by rw [List.length_map, hlen_sp, hlen_adj])
    have h3 := hperm.map Prod.fst
    rw [List.enum_map_fst] at h3
    rw [h2] at h1
    exact h1.trans h3
  have hfst_i : ((((sp.map Prod.fst).zip (bhAdjustSorted (sp.map Prod.snd))).mergeSort
      (fun x y => decide (x.1 ≤ y.1))).get ⟨i, hi_out⟩).1 = i := by
    have h4 : ((((sp.map Prod.fst).zip (bhAdjustSorted (sp.map Prod.snd))).mergeSort
        (fun x y => decide (x.1 ≤ y.1))).map Prod.fst)[i]?
        = (List.range ps.length)[i]? := by
      rw [hfst_eq]
    rw [List.getElem?_eq_getElem (by rw [List.length_map]; exact hi_out),
      List.getElem?_eq_getElem (by rw [List.length_range]; exact hi)] at h4
    have h5 := Option.some.inj h4
    rw [List.getElem_map, List.getElem_range] at h5
    exact h5
  have hmem_out := hout_perm.mem_iff.mp (List.get_mem _ i hi_out)
  have hx : ((((sp.map Prod.fst).zip (bhAdjustSorted (sp.map Prod.snd))).mergeSort
      (fun x y => decide (x.1 ≤ y.1))).get ⟨i, hi_out⟩).1 < ps.length := by
    rw [hfst_i]; exact hi
  have hfin := hgood _ hmem_out hx
  have h8 : ((((sp.map Prod.fst).zip (bhAdjustSorted (sp.map Prod.snd))).mergeSort
      (fun x y => decide (x.1 ≤ y.1))).map Prod.snd).get ⟨i, hi2⟩
      = ((((sp.map Prod.fst).zip (bhAdjustSorted (sp.map Prod.snd))).mergeSort
      (fun x y => decide (x.1 ≤ y.1))).get ⟨i, hi_out⟩).2 := by
    simp [List.get_eq_getElem, List.getElem_map]
  rw [h8]
  refine le_trans (le_of_eq ?_) hfin
  exact congrArg ps.get (Fin.ext hfst_i.symm)

/-- C4: the Benjamini-Hochberg corrected p-values returned by
`multipletests(..., method='fdr_bh')` are component-wise at least the raw
p-values, and when the raw p-values are sorted ascending the corrected
values are monotonically non-decreasing. -/
theorem C4_fdr_bh_monotone (ps : List ℚ) (h01 : ∀ p ∈ ps, 0 ≤ p ∧ p ≤ 1) :
    (∀ i (hi : i < ps.length) (hi2 : i < (multipletestsFdrBh ps).length),
        ps.get ⟨i, hi⟩ ≤ (multipletestsFdrBh ps).get ⟨i, hi2⟩) ∧
      (ps.Sorted (· ≤ ·) → (multipletestsFdrBh ps).Sorted (· ≤ ·)) := by
  constructor
  · intro i hi hi2
    have hsorted : (ps.enum.mergeSort (fun x y => decide (x.2 ≤ y.2))).Pairwise
        (fun x y => x.2 ≤ y.2) :=
      (List.sorted_mergeSort leSnd_trans leSnd_total ps.enum).imp
        (fun h => of_decide_eq_true h)
    exact unsorted_restore_ge ps h01 _ (List.mergeSort_perm _ _) hsorted i hi hi2
  · intro hsort
    have henum : ps.enum.Pairwise (fun x y => decide (x.2 ≤ y.2) = true) := by
      have h1 : ps.enum.Pairwise (fun x y => x.2 ≤ y.2) := by
        rw [List.enum_eq_zip_range]
        exact pairwise_zip_snd _ _ hsort
      exact h1.imp (fun h => decide_eq_true h)
    have hsp : ps.enum.mergeSort (fun x y => decide (x.2 ≤ y.2)) = ps.enum :=
      List.mergeSort_of_sorted henum
    have heq : multipletestsFdrBh ps = bhAdjustSorted ps := by
      unfold multipletestsFdrBh
      rw [hsp, List.enum_map_snd, List.enum_map_fst]
      have hzip_sorted : ((List.range ps.length).zip (bhAdjustSorted ps)).Pairwise
          (fun x y => decide (x.1 ≤ y.1) = true) :=
        (pairwise_zip_fst _ _ (List.pairwise_le_range ps.length)).imp
          (fun h => decide_eq_true h)
      rw [List.mergeSort_of_sorted hzip_sorted]
      exact List.map_snd_zip _ _ (by simp [length_bhAdjustSorted])
    rw [heq]
    exact bhAdjustSorted_sorted ps

theorem C4_fdr_bh_monotone_witness :
    (∀ p ∈ [(1 : ℚ) / 2, 1], 0 ≤ p ∧ p ≤ 1) ∧
      ((∀ i (hi : i < ([(1 : ℚ) / 2, 1] : List ℚ).length)
          (hi2 : i < (multipletestsFdrBh [(1 : ℚ) / 2, 1]).length),
          ([(1 : ℚ) / 2, 1] : List ℚ).get ⟨i, hi⟩
            ≤ (multipletestsFdrBh [(1 : ℚ) / 2, 1]).get ⟨i, hi2⟩) ∧
        (([(1 : ℚ) / 2, 1] : List ℚ).Sorted (· ≤ ·) →
          (multipletestsFdrBh [(1 : ℚ) / 2, 1]).Sorted (· ≤ ·))) := by
  have h : ∀ p ∈ [(1 : ℚ) / 2, 1], 0 ≤ p ∧ p ≤ 1 := by
    intro p hp
    fin_cases hp <;> norm_num
  exact ⟨h, C4_fdr_bh_monotone [(1 : ℚ) / 2, 1] h⟩

/-! ## Theorems: result post-processing (C5) -/

theorem lePval_trans (a b c : ModuleResult × ℚ)
    (h1 : decide (a.1.p_value ≤ b.1.p_value) = true)
    (h2 : decide (b.1.p_value ≤ c.1.p_value) = true) :
    decide (a.1.p_value ≤ c.1.p_value) = true := by
  simp only [decide_eq_true_eq] at h1 h2 ⊢
  exact le_trans h1 h2

theorem lePval_total (a b : ModuleResult × ℚ) :
    (decide (a.1.p_value ≤ b.1.p_value) || decide (b.1.p_value ≤ a.1.p_value)) = true := by
  simp only [Bool.or_eq_true, decide_eq_true_eq]
  exact le_total a.1.p_value b.1.p_value

/-- C5: the primary output of `main` is sorted ascending by p-value; its
rows are exactly the result rows, each paired with the BH-FDR value computed
across the full collection; and the secondary output holds exactly the rows
with `p_value < 0.05`. -/
theorem C5_finalize_results (results : List ModuleResult) :
    (((finalizeResults results).1.map (fun x => x.1.p_value)).Sorted (· ≤ ·)) ∧
      ((finalizeResults results).1.Perm
        (results.zip (multipletestsFdrBh (results.map (fun r => r.p_value))))) ∧
      (∀ x, x ∈ (finalizeResults results).2 ↔
        x ∈ (finalizeResults results).1 ∧ x.1.p_value < (5 : ℚ) / 100) := by
  refine ⟨?_, ?_, ?_⟩
  · have h := List.sorted_mergeSort lePval_trans lePval_total
      (results.zip (multipletestsFdrBh (results.map (fun r => r.p_value))))
    exact List.pairwise_map.mpr (h.imp (fun hh => of_decide_eq_true hh))
  · exact List.mergeSort_perm _ _
  · intro x
    constructor
    · intro hx
      have h := List.mem_filter.mp hx
      refine ⟨h.1, ?_⟩
      have h2 := h.2
      simp only [decide_eq_true_eq] at h2
      exact h2
    · rintro ⟨h1, h2⟩
      exact List.mem_filter.mpr ⟨h1, by simp only [decide_eq_true_eq]; exact h2⟩

theorem C8_query_retry_bound_witness :
    (fun (_ : ℕ) (_ : ℕ) => some ([] : List (String × String))) 0 0 = some [] ∧
      queryWithRetry ((fun (_ : ℕ) (_ : ℕ) => some ([] : List (String × String))) 0)
        = (some [], 1, []) :=
  ⟨rfl, (C8_query_retry_bound (fun _ _ => some []) []).2.1 [] 0 rfl⟩
